import Mathlib

/-!
# Verification of the `updater` package registry (src/package.rs)

Shallow embedding of the version-lifecycle engine of `src/package.rs`.

Modelling conventions:

* Rust `HashMap<String, V>` is modelled as an association list
  `List (String × V)` with unique keys.  The *list order* models the
  HashMap's iteration order.  Rust leaves that order unspecified (and the
  std HashMap randomizes its hash seed per instance), so two loads of the
  same persisted registry document may present the same mapping in any
  permutation of each other; statements about order therefore quantify
  over, or compare, permutation-related representations.
* `PathBuf` is modelled as `String`; timestamps (`chrono` RFC3339) as
  `String` supplied by the environment.
* External effects are parameters: the installer capability
  (`system::detect_package_manager`, `PackageManager::install/update`,
  `system::get_package_manager_by_name`) and the filesystem calls
  (`fs::remove_dir_all`, `Path::exists`) are inputs of each operation,
  one field per call site, so each operation is a pure function of the
  loaded registry and its environment.
* Each operation returns the registry as persisted when the operation
  finishes: on the failure paths that return before `save_packages` the
  input registry is returned unchanged, mirroring that the on-disk
  document was not rewritten.  (`load_packages`/`save_packages` I/O
  failures abort an operation before/without rewriting the document and
  are not modelled further.)
-/

namespace Updater

/-- Lookup in an association list, as `HashMap::get`: the value paired
with the first occurrence of the key. -/
def alistGet {β : Type} (l : List (String × β)) (k : String) : Option β :=
  (l.find? (fun e => e.1 = k)).map (fun e => e.2)

/-- Insert/overwrite, as `HashMap::insert`: if the key is present its
value is replaced in place, otherwise the pair is appended (the position
of a fresh key in the iteration order is unspecified in Rust; appending
is one admissible choice). -/
def alistInsert {β : Type} (l : List (String × β)) (k : String) (v : β) :
    List (String × β) :=
  if l.any (fun e => e.1 = k) then
    l.map (fun e => if e.1 = k then (k, v) else e)
  else
    l ++ [(k, v)]

/-- Deletion, as `HashMap::remove` on a unique-key map. -/
def alistRemove {β : Type} (l : List (String × β)) (k : String) :
    List (String × β) :=
  l.filter (fun e => ¬ e.1 = k)

/-- `PackageVersion` of src/package.rs. -/
structure PackageVersion where
  install_path : String
  install_date : String
  bin_paths : List String
  package_manager : Option String
deriving DecidableEq, Repr

/-- `Package` of src/package.rs; `versions` is the HashMap from
version-label to `PackageVersion`, in iteration order. -/
structure Package where
  name : String
  versions : List (String × PackageVersion)
  active_version : Option String
  system : Bool
deriving DecidableEq, Repr

/-- The registry: the HashMap from package name to `Package`, in
iteration order (the value `load_packages` returns). -/
abbrev Registry := List (String × Package)

/-- Environment of one `install` call: outcome of
`system::detect_package_manager` (`none` = no installer available, else
the capability's name), outcome of `PackageManager::install` (`error` =
installer failure, `ok bins` = returned executable paths), and the
timestamp `chrono::Local::now().to_rfc3339()`. -/
structure InstallEnv where
  pmName : Option String
  installResult : Except Unit (List String)
  now : String

/-- Result reported by `install` (which of its exit paths was taken). -/
inductive InstallResult where
  | noInstaller
  | installerError
  | installed (versionLabel : String)
deriving DecidableEq, Repr

/-- The base install path of src/package.rs lines 65-69. -/
def baseInstallPath (user : Bool) : String :=
  if user then "~/.local/share/updater/packages" else "/opt/updater/packages"

/-- `base_install_path.join(name).join(&version_to_install)`. -/
def installDir (user : Bool) (name ver : String) : String :=
  baseInstallPath user ++ "/" ++ name ++ "/" ++ ver

/-- `packages.entry(name).or_insert_with(...)` of src/package.rs lines
78-84: the existing entry, or a fresh `Package` with `system = !user`. -/
def fetchOrCreate (reg : Registry) (name : String) (user : Bool) : Package :=
  match alistGet reg name with
  | some p => p
  | none => { name := name, versions := [], active_version := none,
              system := !user }

/-- src/package.rs lines 94-99: insert/overwrite the version entry,
then make it active only if no version was active. -/
def installedPackage (pkg : Package) (versionToInstall : String)
    (pv : PackageVersion) : Package :=
  let pkg1 := { pkg with versions := alistInsert pkg.versions versionToInstall pv }
  if pkg1.active_version = none then
    { pkg1 with active_version := some versionToInstall }
  else pkg1

/-- `install` of src/package.rs lines 55-105.  Returns the persisted
registry and which exit path was taken. -/
def install (reg : Registry) (name : String) (version : Option String)
    (user : Bool) (env : InstallEnv) : Registry × InstallResult :=
  match env.pmName with
  | none => (reg, .noInstaller)
  | some pm =>
    let versionToInstall := version.getD "latest"
    let dir := installDir user name versionToInstall
    match env.installResult with
    | .error _ => (reg, .installerError)
    | .ok binPaths =>
      let pkg := fetchOrCreate reg name user
      let pv : PackageVersion :=
        { install_path := dir, install_date := env.now,
          bin_paths := binPaths, package_manager := some pm }
      (alistInsert reg name (installedPackage pkg versionToInstall pv),
       .installed versionToInstall)

/-- Environment of one `remove` call: per-path outcomes of
`fs::remove_dir_all` and `Path::exists`. -/
structure FsEnv where
  removeDirOk : String → Bool
  pathExists : String → Bool

/-- Result reported by `remove`; `removedVersion` carries the promoted
active version, if any was promoted. -/
inductive RemoveResult where
  | packageNotFound
  | versionNotFound
  | removedVersion (ver : String) (promoted : Option String)
  | removedPackage
  | fsError
deriving DecidableEq, Repr

/-- src/package.rs lines 118-128: the version promoted to active after
removing `ver`, if any — `None` unless the removed version was the
active one; then the first remaining entry in iteration order
(`package.versions.iter().next()`), if one exists. -/
def promotedVersion (pkg : Package) (ver : String) : Option String :=
  if pkg.active_version = some ver then
    match alistRemove pkg.versions ver with
    | [] => none
    | (nextVer, _) :: _ => some nextVer
  else none

/-- src/package.rs lines 113-129: the package after removing version
`ver`: the entry is deleted, and if `ver` was active the active version
is cleared and the first remaining version (if any) is promoted. -/
def removedVersionPackage (pkg : Package) (ver : String) : Package :=
  { pkg with
    versions := alistRemove pkg.versions ver
    active_version :=
      if pkg.active_version = some ver then promotedVersion pkg ver
      else pkg.active_version }

/-- `remove` of src/package.rs lines 107-160.  In the source the
in-memory map is mutated before `fs::remove_dir_all`, but an fs failure
returns with `?` before `save_packages`, so the persisted registry is
unchanged on that path; the model tests the fs outcome first and returns
the input registry, which yields the same persisted state. -/
def remove (reg : Registry) (name : String) (version : Option String)
    (fs : FsEnv) : Registry × RemoveResult :=
  match alistGet reg name with
  | none => (reg, .packageNotFound)
  | some pkg =>
    match version with
    | some ver =>
      match alistGet pkg.versions ver with
      | none => (reg, .versionNotFound)
      | some pv =>
        if fs.removeDirOk pv.install_path then
          let pkg1 := removedVersionPackage pkg ver
          (alistInsert reg name pkg1,
           .removedVersion ver (promotedVersion pkg ver))
        else (reg, .fsError)
    | none =>
      if pkg.versions.all
          (fun e => !fs.pathExists e.2.install_path || fs.removeDirOk e.2.install_path) then
        (alistRemove reg name, .removedPackage)
      else (reg, .fsError)

/-- Environment of one `update` call: whether
`system::get_package_manager_by_name` resolves a recorded installer
name, and the outcome of `PackageManager::update` for each package name
(each package is updated at most once per call). -/
structure UpdateEnv where
  resolve : String → Bool
  updateOk : String → Bool

/-- The recorded installer of the package's active version, when the
package qualifies for an update: it has an active version, the active
version is a key of `versions`, and that version records a
`package_manager`. -/
def eligiblePM (p : Package) : Option String :=
  match p.active_version with
  | none => none
  | some av =>
    match alistGet p.versions av with
    | none => none
    | some vi => vi.package_manager

/-- The all-targets loop of `update` (src/package.rs lines 183-195):
per-package `pm.update` failures are caught by the `match` and recorded,
but a failing `system::get_package_manager_by_name(pm_name)?` aborts the
whole loop.  Returns the successfully updated and the failed package
names, in iteration order. -/
def updateAllLoop (env : UpdateEnv) :
    List (String × Package) → Except Unit (List String × List String)
  | [] => .ok ([], [])
  | (n, p) :: rest =>
    match eligiblePM p with
    | none => updateAllLoop env rest
    | some pm =>
      if env.resolve pm then
        match updateAllLoop env rest with
        | .error e => .error e
        | .ok (u, f) =>
          if env.updateOk n then .ok (n :: u, f) else .ok (u, n :: f)
      else .error ()

/-- `update` of src/package.rs lines 162-201.  Returns the persisted
registry and either an error (propagated before `save_packages`) or the
updated/failed package names. -/
def update (reg : Registry) (name : Option String) (env : UpdateEnv) :
    Registry × Except Unit (List String × List String) :=
  match name with
  | some n =>
    match alistGet reg n with
    | none => (reg, .ok ([], []))
    | some p =>
      match eligiblePM p with
      | none => (reg, .ok ([], []))
      | some pm =>
        if env.resolve pm then
          if env.updateOk n then (reg, .ok ([n], [])) else (reg, .error ())
        else (reg, .error ())
  | none =>
    match updateAllLoop env reg with
    | .error e => (reg, .error e)
    | .ok uf => (reg, .ok uf)

/-- Result reported by `switch`. -/
inductive SwitchResult where
  | packageNotFound
  | versionNotFound
  | switched
deriving DecidableEq, Repr

/-- `switch` of src/package.rs lines 275-300. -/
def switch (reg : Registry) (name ver : String) : Registry × SwitchResult :=
  match alistGet reg name with
  | none => (reg, .packageNotFound)
  | some pkg =>
    if (alistGet pkg.versions ver).isSome then
      (alistInsert reg name { pkg with active_version := some ver }, .switched)
    else (reg, .versionNotFound)

/-- One printed package block of `list` (src/package.rs lines 212-235):
the header data and, per version in iteration order, whether it is
marked active, its label, and its install date. -/
structure ListLine where
  name : String
  pkgType : String
  versionCount : Nat
  versionLines : List (Bool × String × String)
deriving DecidableEq, Repr

/-- Whether `list` skips the package (the `continue` of line 214-216). -/
def listSkips (p : Package) (systemOnly userOnly : Bool) : Bool :=
  (systemOnly && !p.system) || (userOnly && p.system)

/-- The block `list` prints for one package. -/
def listLine (name : String) (p : Package) : ListLine :=
  { name := name
    pkgType := if p.system then "system" else "user"
    versionCount := p.versions.length
    versionLines :=
      p.versions.map (fun e => (some e.1 = p.active_version, e.1, e.2.install_date)) }

/-- `list` of src/package.rs lines 203-246: the sequence of package
blocks printed, in registry iteration order. -/
def listOutput (reg : Registry) (systemOnly userOnly : Bool) : List ListLine :=
  (reg.filter (fun e => !listSkips e.2 systemOnly userOnly)).map
    (fun e => listLine e.1 e.2)

/-- One CLI operation of §4, with its environment. -/
inductive Op where
  | install (name : String) (version : Option String) (user : Bool) (env : InstallEnv)
  | remove (name : String) (version : Option String) (fs : FsEnv)
  | update (name : Option String) (env : UpdateEnv)
  | switch (name ver : String)

/-- The registry persisted after one completed operation. -/
def applyOp (reg : Registry) : Op → Registry
  | .install n v u env => (install reg n v u env).1
  | .remove n v fs => (remove reg n v fs).1
  | .update n env => (update reg n env).1
  | .switch n v => (switch reg n v).1

/-- The registry persisted after a sequence of operations. -/
def steps (reg : Registry) : List Op → Registry
  | [] => reg
  | op :: ops => steps (applyOp reg op) ops

/-- The active-version invariant for one package: `active_version`, if
set, is a key of `versions`. -/
def PkgInvB (p : Package) : Bool :=
  Option.all (fun v => (alistGet p.versions v).isSome) p.active_version

/-- The registry invariant of §3/§8: every package satisfies
`PkgInvB`. -/
def Inv (reg : Registry) : Prop := ∀ e ∈ reg, PkgInvB e.2 = true

instance (reg : Registry) : Decidable (Inv reg) :=
  inferInstanceAs (Decidable (∀ e ∈ reg, PkgInvB e.2 = true))

/-- Well-formedness inherited from `HashMap`: within each package, the
version-labels are pairwise distinct. -/
def VersionsWF (reg : Registry) : Prop :=
  ∀ e ∈ reg, (e.2.versions.map Prod.fst).Nodup

instance (reg : Registry) : Decidable (VersionsWF reg) :=
  inferInstanceAs (Decidable (∀ e ∈ reg, (e.2.versions.map Prod.fst).Nodup))

/-! ## Concrete sample data for closed statements -/

/-- A sample installed version. -/
def pvSample : PackageVersion :=
  { install_path := "/opt/updater/packages/foo/1.0"
    install_date := "2025-01-01T00:00:00+00:00"
    bin_paths := ["/opt/updater/packages/foo/1.0/bin/foo"]
    package_manager := some "apt" }

/-- An environment where every filesystem call succeeds. -/
def fsAllOk : FsEnv :=
  { removeDirOk := fun _ => true, pathExists := fun _ => true }

/-- An install environment that succeeds. -/
def envInstallOk : InstallEnv :=
  { pmName := some "apt"
    installResult := .ok ["/opt/updater/packages/foo/1.0/bin/foo"]
    now := "2025-01-01T00:00:00+00:00" }

/-- An install environment whose installer capability fails. -/
def envInstallFail : InstallEnv :=
  { pmName := some "apt", installResult := .error (), now := "t" }

/-- An update environment where resolution and updates succeed. -/
def envUpdateOk : UpdateEnv :=
  { resolve := fun _ => true, updateOk := fun _ => true }

/-- An update environment where `get_package_manager_by_name` fails. -/
def envUpdateNoResolve : UpdateEnv :=
  { resolve := fun _ => false, updateOk := fun _ => true }

/-- A package holding a single version `1.0`, which is active. -/
def pkgOne : Package :=
  { name := "foo", versions := [("1.0", pvSample)],
    active_version := some "1.0", system := true }

/-- A registry with one package holding its single version. -/
def regOne : Registry := [("foo", pkgOne)]

/-- `"foo"` with versions `1.0`, `2.0`, `3.0` (iteration order A),
active `1.0`. -/
def pkgThreeA : Package :=
  { name := "foo"
    versions := [("1.0", pvSample), ("2.0", pvSample), ("3.0", pvSample)]
    active_version := some "1.0", system := true }

/-- The same mapping as `pkgThreeA` in another iteration order. -/
def pkgThreeB : Package :=
  { name := "foo"
    versions := [("1.0", pvSample), ("3.0", pvSample), ("2.0", pvSample)]
    active_version := some "1.0", system := true }

/-- Registry holding `pkgThreeA`. -/
def regThreeA : Registry := [("foo", pkgThreeA)]

/-- Registry holding `pkgThreeB`. -/
def regThreeB : Registry := [("foo", pkgThreeB)]

/-- Packages `"a"` and `"b"`, distinguishable in `list` output. -/
def pkgListA : Package :=
  { name := "a", versions := [("1.0", pvSample)],
    active_version := some "1.0", system := true }

/-- See `pkgListA`. -/
def pkgListB : Package :=
  { name := "b", versions := [("2.0", pvSample)],
    active_version := some "2.0", system := false }

/-- The two-package registry in one iteration order. -/
def regPairA : Registry := [("a", pkgListA), ("b", pkgListB)]

/-- The same mapping as `regPairA` in the other iteration order. -/
def regPairB : Registry := [("b", pkgListB), ("a", pkgListA)]

/-- A sample operation sequence exercising every operation kind. -/
def opsSample : List Op :=
  [Op.install "foo" none true envInstallOk,
   Op.install "foo" (some "1.0") true envInstallOk,
   Op.switch "foo" "1.0",
   Op.remove "foo" (some "latest") fsAllOk,
   Op.update none envUpdateOk,
   Op.switch "foo" "9.9",
   Op.remove "foo" none fsAllOk]

/-! ## Association-list lemmas -/

theorem alistGet_nil {β : Type} (k : String) :
    alistGet ([] : List (String × β)) k = none := rfl

theorem alistGet_cons {β : Type} (a : String) (b : β) (l : List (String × β))
    (k : String) :
    alistGet ((a, b) :: l) k = if a = k then some b else alistGet l k := by
  by_cases h : a = k
  · simp [alistGet, List.find?_cons_of_pos, h]
  · simp only [alistGet, if_neg h]
    rw [List.find?_cons_of_neg]
    simp [h]

theorem alistGet_map_replace {β : Type} (l : List (String × β)) (k : String)
    (v : β) (k' : String) (h : ¬ k = k') :
    alistGet (l.map (fun e => if e.1 = k then (k, v) else e)) k' =
      alistGet l k' := by
  induction l with
  | nil => rfl
  | cons e l ih =>
    obtain ⟨a, b⟩ := e
    by_cases ha : a = k
    · simp only [List.map_cons, if_pos ha, alistGet_cons, if_neg h, ih]
      rw [if_neg]
      exact fun hk => h (ha ▸ hk)
    · simp only [List.map_cons, if_neg ha, alistGet_cons, ih]

theorem alistInsert_cons_ne {β : Type} (a : String) (b : β)
    (l : List (String × β)) (k : String) (v : β) (h : ¬ a = k) :
    alistInsert ((a, b) :: l) k v = (a, b) :: alistInsert l k v := by
  simp only [alistInsert, List.any_cons, h, decide_False, Bool.false_or]
  by_cases hl : l.any (fun e => e.1 = k)
  · simp [hl, h]
  · simp [hl, h]

theorem alistGet_insert {β : Type} (l : List (String × β)) (k : String)
    (v : β) (k' : String) :
    alistGet (alistInsert l k v) k' =
      if k = k' then some v else alistGet l k' := by
  induction l with
  | nil =>
    simp only [alistInsert, List.any_nil, if_neg Bool.false_ne_true,
      List.nil_append, alistGet_cons, alistGet_nil]
  | cons e l ih =>
    obtain ⟨a, b⟩ := e
    by_cases ha : a = k
    · subst ha
      simp only [alistInsert, List.any_cons, decide_True, Bool.true_or,
        if_pos, List.map_cons, if_pos rfl, alistGet_cons]
      by_cases hk : a = k'
      · simp [hk]
      · simp only [if_neg hk]
        exact alistGet_map_replace l a v k' hk
    · rw [alistInsert_cons_ne a b l k v ha, alistGet_cons, alistGet_cons]
      by_cases hk : a = k'
      · rw [if_pos hk, if_pos hk, if_neg]
        exact fun hkk => ha (hkk ▸ hk)
      · rw [if_neg hk, if_neg hk, ih]

theorem alistGet_remove {β : Type} (l : List (String × β)) (k k' : String) :
    alistGet (alistRemove l k) k' =
      if k = k' then none else alistGet l k' := by
  induction l with
  | nil => simp [alistRemove, alistGet_nil]
  | cons e l ih =>
    obtain ⟨a, b⟩ := e
    by_cases ha : a = k
    · have hdrop : alistRemove ((a, b) :: l) k = alistRemove l k := by
        simp [alistRemove, List.filter_cons, ha]
      rw [hdrop, ih]
      by_cases h : k = k'
      · rw [if_pos h, if_pos h]
      · rw [if_neg h, if_neg h, alistGet_cons,
          if_neg (fun hk => h (ha ▸ hk))]
    · have hkeep : alistRemove ((a, b) :: l) k = (a, b) :: alistRemove l k := by
        simp [alistRemove, List.filter_cons, ha]
      rw [hkeep, alistGet_cons]
      by_cases hk : a = k'
      · rw [if_pos hk, if_neg (fun h : k = k' => ha (hk.trans h.symm)),
          alistGet_cons, if_pos hk]
      · rw [if_neg hk, ih]
        by_cases h : k = k'
        · rw [if_pos h, if_pos h]
        · rw [if_neg h, if_neg h, alistGet_cons, if_neg hk]

theorem mem_alistInsert {β : Type} (l : List (String × β)) (k : String)
    (v : β) (e : String × β) (h : e ∈ alistInsert l k v) :
    e = (k, v) ∨ e ∈ l := by
  unfold alistInsert at h
  by_cases hl : l.any (fun e => e.1 = k)
  · rw [if_pos (by exact_mod_cast hl)] at h
    obtain ⟨x, hx, hfx⟩ := List.mem_map.mp h
    by_cases hxk : x.1 = k
    · left; rw [← hfx, if_pos hxk]
    · right; rw [← hfx, if_neg hxk]; exact hx
  · rw [if_neg (by exact_mod_cast hl)] at h
    rcases List.mem_append.mp h with h' | h'
    · right; exact h'
    · left; simpa using h'

theorem mem_alistRemove {β : Type} (l : List (String × β)) (k : String)
    (e : String × β) (h : e ∈ alistRemove l k) : e ∈ l :=
  List.mem_of_mem_filter h

theorem alistGet_mem {β : Type} (l : List (String × β)) (k : String) (v : β)
    (h : alistGet l k = some v) : (k, v) ∈ l := by
  unfold alistGet at h
  obtain ⟨e, he⟩ := Option.map_eq_some'.mp h
  have hmem := List.mem_of_find?_eq_some he.1
  have hp := List.find?_some he.1
  obtain ⟨a, b⟩ := e
  simp only [decide_eq_true_eq] at hp
  cases hp
  cases he.2
  exact hmem

/-! ## Invariant preservation -/

theorem Inv_insert (reg : Registry) (n : String) (p : Package)
    (h : Inv reg) (hp : PkgInvB p = true) : Inv (alistInsert reg n p) := by
  intro e he
  rcases mem_alistInsert reg n p e he with he' | he'
  · rw [he']; exact hp
  · exact h e he'

theorem Inv_remove (reg : Registry) (n : String) (h : Inv reg) :
    Inv (alistRemove reg n) :=
  fun e he => h e (mem_alistRemove reg n e he)

theorem PkgInvB_fetchOrCreate (reg : Registry) (n : String) (user : Bool)
    (h : Inv reg) : PkgInvB (fetchOrCreate reg n user) = true := by
  unfold fetchOrCreate
  cases hg : alistGet reg n with
  | none => rfl
  | some p => exact h (n, p) (alistGet_mem reg n p hg)

/-! Path equations for each operation, one per exit path of the source
function; downstream theorems case on these. -/

theorem install_eq_noInstaller (reg : Registry) (n : String)
    (v : Option String) (u : Bool) (env : InstallEnv)
    (hpm : env.pmName = none) :
    install reg n v u env = (reg, .noInstaller) := by
  simp [install, hpm]

theorem install_eq_installerError (reg : Registry) (n : String)
    (v : Option String) (u : Bool) (env : InstallEnv) (pm : String)
    (e : Unit) (hpm : env.pmName = some pm)
    (hres : env.installResult = .error e) :
    install reg n v u env = (reg, .installerError) := by
  simp [install, hpm, hres]

theorem install_eq_installed (reg : Registry) (n : String)
    (v : Option String) (u : Bool) (env : InstallEnv) (pm : String)
    (bins : List String) (hpm : env.pmName = some pm)
    (hres : env.installResult = .ok bins) :
    install reg n v u env =
      (alistInsert reg n
        (installedPackage (fetchOrCreate reg n u) (v.getD "latest")
          { install_path := installDir u n (v.getD "latest")
            install_date := env.now
            bin_paths := bins
            package_manager := some pm }),
       .installed (v.getD "latest")) := by
  simp [install, hpm, hres]

theorem remove_eq_packageNotFound (reg : Registry) (n : String)
    (v : Option String) (fs : FsEnv) (hg : alistGet reg n = none) :
    remove reg n v fs = (reg, .packageNotFound) := by
  simp [remove, hg]

theorem remove_eq_versionNotFound (reg : Registry) (n : String)
    (ver : String) (fs : FsEnv) (pkg : Package)
    (hg : alistGet reg n = some pkg)
    (hv : alistGet pkg.versions ver = none) :
    remove reg n (some ver) fs = (reg, .versionNotFound) := by
  simp [remove, hg, hv]

theorem remove_eq_removedVersion (reg : Registry) (n : String)
    (ver : String) (fs : FsEnv) (pkg : Package) (pv : PackageVersion)
    (hg : alistGet reg n = some pkg)
    (hv : alistGet pkg.versions ver = some pv)
    (hfs : fs.removeDirOk pv.install_path = true) :
    remove reg n (some ver) fs =
      (alistInsert reg n (removedVersionPackage pkg ver),
       .removedVersion ver (promotedVersion pkg ver)) := by
  simp [remove, hg, hv, hfs]

theorem remove_eq_fsErrorVersion (reg : Registry) (n : String)
    (ver : String) (fs : FsEnv) (pkg : Package) (pv : PackageVersion)
    (hg : alistGet reg n = some pkg)
    (hv : alistGet pkg.versions ver = some pv)
    (hfs : fs.removeDirOk pv.install_path = false) :
    remove reg n (some ver) fs = (reg, .fsError) := by
  simp [remove, hg, hv, hfs]

theorem remove_eq_removedPackage (reg : Registry) (n : String)
    (fs : FsEnv) (pkg : Package) (hg : alistGet reg n = some pkg)
    (hfs : pkg.versions.all
      (fun e => !fs.pathExists e.2.install_path ||
        fs.removeDirOk e.2.install_path) = true) :
    remove reg n none fs = (alistRemove reg n, .removedPackage) := by
  simp [remove, hg, hfs]

theorem remove_eq_fsErrorAll (reg : Registry) (n : String)
    (fs : FsEnv) (pkg : Package) (hg : alistGet reg n = some pkg)
    (hfs : pkg.versions.all
      (fun e => !fs.pathExists e.2.install_path ||
        fs.removeDirOk e.2.install_path) = false) :
    remove reg n none fs = (reg, .fsError) := by
  simp [remove, hg, hfs]

theorem switch_eq_packageNotFound (reg : Registry) (n ver : String)
    (hg : alistGet reg n = none) :
    switch reg n ver = (reg, .packageNotFound) := by
  simp [switch, hg]

theorem switch_eq_switched (reg : Registry) (n ver : String)
    (pkg : Package) (hg : alistGet reg n = some pkg)
    (hv : (alistGet pkg.versions ver).isSome = true) :
    switch reg n ver =
      (alistInsert reg n { pkg with active_version := some ver },
       .switched) := by
  simp [switch, hg, hv]

theorem switch_eq_versionNotFound (reg : Registry) (n ver : String)
    (pkg : Package) (hg : alistGet reg n = some pkg)
    (hv : (alistGet pkg.versions ver).isSome = false) :
    switch reg n ver = (reg, .versionNotFound) := by
  simp [switch, hg, hv]

theorem PkgInvB_installedPackage (pkg : Package) (vti : String)
    (pv : PackageVersion) (hpkg : PkgInvB pkg = true) :
    PkgInvB (installedPackage pkg vti pv) = true := by
  unfold PkgInvB at hpkg ⊢
  unfold installedPackage
  cases hA : pkg.active_version with
  | none => simp [hA, alistGet_insert]
  | some av =>
    simp only [hA] at hpkg ⊢
    simp only [Option.all] at hpkg ⊢
    simp only [reduceCtorEq, if_neg not_false, alistGet_insert]
    by_cases hv : vti = av
    · simp [hv]
    · simp only [if_neg hv]
      exact hpkg

theorem PkgInvB_removedVersionPackage (pkg : Package) (ver : String)
    (hpkg : PkgInvB pkg = true) :
    PkgInvB (removedVersionPackage pkg ver) = true := by
  unfold PkgInvB at hpkg ⊢
  unfold removedVersionPackage promotedVersion
  cases hA : pkg.active_version with
  | none => simp [hA]
  | some av =>
    simp only [hA] at hpkg ⊢
    simp only [Option.all] at hpkg ⊢
    by_cases hv : av = ver
    · subst hv
      simp only [if_pos rfl]
      cases hrem : alistRemove pkg.versions av with
      | nil => simp
      | cons e rest =>
        obtain ⟨nv, pv'⟩ := e
        simp [alistGet_cons]
    · have hne : ¬ (some av : Option String) = some ver := by
        exact fun hc => hv (Option.some_injective _ hc)
      simp only [if_neg hne, Option.all]
      rw [alistGet_remove, if_neg (fun hc : ver = av => hv hc.symm)]
      exact hpkg

theorem install_fst_Inv (reg : Registry) (n : String) (v : Option String)
    (u : Bool) (env : InstallEnv) (h : Inv reg) :
    Inv (install reg n v u env).1 := by
  cases hpm : env.pmName with
  | none => rw [install_eq_noInstaller reg n v u env hpm]; exact h
  | some pm =>
    cases hres : env.installResult with
    | error e => rw [install_eq_installerError reg n v u env pm e hpm hres]; exact h
    | ok bins =>
      rw [install_eq_installed reg n v u env pm bins hpm hres]
      exact Inv_insert reg n _ h
        (PkgInvB_installedPackage _ _ _ (PkgInvB_fetchOrCreate reg n u h))

theorem remove_fst_Inv (reg : Registry) (n : String) (v : Option String)
    (fs : FsEnv) (h : Inv reg) : Inv (remove reg n v fs).1 := by
  cases hg : alistGet reg n with
  | none => rw [remove_eq_packageNotFound reg n v fs hg]; exact h
  | some pkg =>
    have hpkg : PkgInvB pkg = true := h (n, pkg) (alistGet_mem reg n pkg hg)
    cases v with
    | none =>
      cases hfs : pkg.versions.all
          (fun e => !fs.pathExists e.2.install_path || fs.removeDirOk e.2.install_path) with
      | true =>
        rw [remove_eq_removedPackage reg n fs pkg hg hfs]
        exact Inv_remove reg n h
      | false =>
        rw [remove_eq_fsErrorAll reg n fs pkg hg hfs]; exact h
    | some ver =>
      cases hgv : alistGet pkg.versions ver with
      | none => rw [remove_eq_versionNotFound reg n ver fs pkg hg hgv]; exact h
      | some pv =>
        cases hfs : fs.removeDirOk pv.install_path with
        | true =>
          rw [remove_eq_removedVersion reg n ver fs pkg pv hg hgv hfs]
          exact Inv_insert reg n _ h (PkgInvB_removedVersionPackage pkg ver hpkg)
        | false =>
          rw [remove_eq_fsErrorVersion reg n ver fs pkg pv hg hgv hfs]; exact h

theorem switch_fst_Inv (reg : Registry) (n ver : String) (h : Inv reg) :
    Inv (switch reg n ver).1 := by
  cases hg : alistGet reg n with
  | none => rw [switch_eq_packageNotFound reg n ver hg]; exact h
  | some pkg =>
    cases hv : (alistGet pkg.versions ver).isSome with
    | true =>
      rw [switch_eq_switched reg n ver pkg hg hv]
      refine Inv_insert reg n _ h ?_
      simp [PkgInvB, Option.all, hv]
    | false =>
      rw [switch_eq_versionNotFound reg n ver pkg hg hv]; exact h

theorem update_fst (reg : Registry) (name : Option String) (env : UpdateEnv) :
    (update reg name env).1 = reg := by
  cases name with
  | none => cases h : updateAllLoop env reg <;> simp [update, h]
  | some n =>
    cases hg : alistGet reg n with
    | none => simp [update, hg]
    | some p =>
      cases he : eligiblePM p with
      | none => simp [update, hg, he]
      | some pm =>
        by_cases hr : env.resolve pm <;> by_cases hu : env.updateOk n <;>
          simp [update, hg, he, hr, hu]

theorem applyOp_Inv (reg : Registry) (op : Op) (h : Inv reg) :
    Inv (applyOp reg op) := by
  cases op with
  | install n v u env => exact install_fst_Inv reg n v u env h
  | remove n v fs => exact remove_fst_Inv reg n v fs h
  | update n env => rw [applyOp, update_fst]; exact h
  | switch n v => exact switch_fst_Inv reg n v h

theorem steps_Inv (reg : Registry) (ops : List Op) (h : Inv reg) :
    Inv (steps reg ops) := by
  induction ops generalizing reg with
  | nil => exact h
  | cons op ops ih => exact ih (applyOp reg op) (applyOp_Inv reg op h)

/-! ## Further structural lemmas -/

theorem installedPackage_versions (pkg : Package) (vti : String)
    (pv : PackageVersion) :
    (installedPackage pkg vti pv).versions = alistInsert pkg.versions vti pv := by
  by_cases h : pkg.active_version = none <;> simp [installedPackage, h]

theorem installedPackage_active_of_some (pkg : Package) (vti : String)
    (pv : PackageVersion) (av : String) (hA : pkg.active_version = some av) :
    (installedPackage pkg vti pv).active_version = some av := by
  unfold installedPackage
  simp [hA]

theorem installedPackage_active_of_none (pkg : Package) (vti : String)
    (pv : PackageVersion) (hA : pkg.active_version = none) :
    (installedPackage pkg vti pv).active_version = some vti := by
  unfold installedPackage
  simp [hA]

theorem map_fst_alistInsert {β : Type} (l : List (String × β)) (k : String)
    (v : β) :
    (alistInsert l k v).map Prod.fst =
      if l.any (fun e => e.1 = k) then l.map Prod.fst
      else l.map Prod.fst ++ [k] := by
  unfold alistInsert
  by_cases h : l.any (fun e => e.1 = k)
  · rw [if_pos (by exact_mod_cast h), if_pos (by exact_mod_cast h),
      List.map_map]
    apply List.map_congr_left
    intro e _
    by_cases he : e.1 = k
    · simp [he]
    · simp [he]
  · rw [if_neg (by exact_mod_cast h), if_neg (by exact_mod_cast h),
      List.map_append]
    rfl

theorem nodup_keys_alistInsert {β : Type} (l : List (String × β))
    (k : String) (v : β) (h : (l.map Prod.fst).Nodup) :
    ((alistInsert l k v).map Prod.fst).Nodup := by
  rw [map_fst_alistInsert]
  by_cases hl : l.any (fun e => e.1 = k)
  · rw [if_pos (by exact_mod_cast hl)]
    exact h
  · rw [if_neg (by exact_mod_cast hl)]
    rw [List.nodup_append]
    refine ⟨h, List.nodup_singleton k, ?_⟩
    intro a ha hk
    rw [List.mem_singleton] at hk
    subst hk
    obtain ⟨e, he, hek⟩ := List.mem_map.mp ha
    rw [List.any_eq_true] at hl
    exact hl ⟨e, he, by simp [hek]⟩

theorem mem_keys_of_alistGet {β : Type} (l : List (String × β)) (k : String)
    (v : β) (h : alistGet l k = some v) : k ∈ l.map Prod.fst :=
  List.mem_map.mpr ⟨(k, v), alistGet_mem l k v h, rfl⟩

theorem updateAllLoop_isolates (env : UpdateEnv) (l : List (String × Package))
    (hres : ∀ e ∈ l, Option.all env.resolve (eligiblePM e.2) = true) :
    ∃ upd fail, updateAllLoop env l = .ok (upd, fail) ∧
      ∀ e ∈ l, (eligiblePM e.2).isSome = true → e.1 ∈ upd ∨ e.1 ∈ fail := by
  induction l with
  | nil => exact ⟨[], [], rfl, by simp⟩
  | cons e rest ih =>
    obtain ⟨n, p⟩ := e
    obtain ⟨u, f, hloop, hmem⟩ :=
      ih (fun e he => hres e (List.mem_cons_of_mem _ he))
    cases hel : eligiblePM p with
    | none =>
      refine ⟨u, f, ?_, ?_⟩
      · simp only [updateAllLoop, hel]
        exact hloop
      · intro e he hsome
        rcases List.mem_cons.mp he with rfl | he'
        · rw [hel] at hsome
          simp at hsome
        · exact hmem e he' hsome
    | some pm =>
      have hr : env.resolve pm = true := by
        have := hres (n, p) (List.mem_cons_self _ _)
        rw [hel] at this
        simpa [Option.all] using this
      cases hu : env.updateOk n with
      | true =>
        refine ⟨n :: u, f, ?_, ?_⟩
        · simp [updateAllLoop, hel, hr, hloop, hu]
        · intro e he _
          rcases List.mem_cons.mp he with rfl | he'
          · left; exact List.mem_cons_self _ _
          · rcases hmem e he' (by assumption) with h' | h'
            · left; exact List.mem_cons_of_mem _ h'
            · right; exact h'
      | false =>
        refine ⟨u, n :: f, ?_, ?_⟩
        · simp [updateAllLoop, hel, hr, hloop, hu]
        · intro e he _
          rcases List.mem_cons.mp he with rfl | he'
          · right; exact List.mem_cons_self _ _
          · rcases hmem e he' (by assumption) with h' | h'
            · left; exact h'
            · right; exact List.mem_cons_of_mem _ h'

/-! ## The claims -/

/-- C1: For every Package in the registry, if `active_version` is set,
it is a key of that Package's `versions` mapping, and this holds after
every completed operation (install, remove, update, switch) for every
sequence of such operations starting from a registry satisfying it. -/
theorem C1_active_version_invariant (reg : Registry) (ops : List Op)
    (h : Inv reg) : Inv (steps reg ops) :=
  steps_Inv reg ops h

/-- Witness for C1 at the empty registry and a concrete operation
sequence. -/
theorem C1_active_version_invariant_witness :
    Inv ([] : Registry) ∧ Inv (steps ([] : Registry) opsSample) :=
  ⟨by decide, C1_active_version_invariant [] opsSample (by decide)⟩

/-- C2 counterexample: `regOne` holds package `"foo"` whose only
version is `"1.0"`; `remove "foo" (some "1.0")` completes normally
(every filesystem call succeeds) yet the `"foo"` entry is still in the
persisted registry, with an empty `versions` mapping — the entry is not
deleted. -/
theorem C2_counterexample :
    alistGet (remove regOne "foo" (some "1.0") fsAllOk).1 "foo" =
      some { name := "foo", versions := [], active_version := none,
             system := true } ∧
    (remove regOne "foo" (some "1.0") fsAllOk).2 =
      RemoveResult.removedVersion "1.0" none := by
  constructor <;> rfl

/-- C2 amended: removing the last remaining version of a package by
version-label does NOT delete the Package entry: the entry stays in
the registry with an empty `versions` mapping (and `active_version`
cleared when the removed version was active); only `remove` without a
version-label deletes the entry. -/
theorem C2_amended_last_version_leaves_empty_entry (reg : Registry)
    (n ver : String) (pkg : Package) (pv : PackageVersion) (fs : FsEnv)
    (hg : alistGet reg n = some pkg)
    (hver : pkg.versions = [(ver, pv)])
    (hfs : fs.removeDirOk pv.install_path = true) :
    alistGet (remove reg n (some ver) fs).1 n =
      some { pkg with
             versions := []
             active_version := (if pkg.active_version = some ver then none
                                else pkg.active_version) } ∧
    (remove reg n (some ver) fs).2 = RemoveResult.removedVersion ver none ∧
    (pkg.versions.all (fun e => !fs.pathExists e.2.install_path ||
        fs.removeDirOk e.2.install_path) = true →
      alistGet (remove reg n none fs).1 n = none) := by
  have hvget : alistGet pkg.versions ver = some pv := by
    rw [hver, alistGet_cons, if_pos rfl]
  have hrem : alistRemove pkg.versions ver = [] := by
    rw [hver]
    simp [alistRemove]
  have hprom : promotedVersion pkg ver = none := by
    unfold promotedVersion
    rw [hrem]
    by_cases hA : pkg.active_version = some ver <;> simp [hA]
  have hpkg1 : removedVersionPackage pkg ver =
      { pkg with
        versions := []
        active_version := (if pkg.active_version = some ver then none
                           else pkg.active_version) } := by
    unfold removedVersionPackage
    rw [hrem, hprom]
  refine ⟨?_, ?_, ?_⟩
  · rw [remove_eq_removedVersion reg n ver fs pkg pv hg hvget hfs, hpkg1]
    rw [alistGet_insert, if_pos rfl]
  · rw [remove_eq_removedVersion reg n ver fs pkg pv hg hvget hfs, hprom]
  · intro hall
    rw [remove_eq_removedPackage reg n fs pkg hg hall, alistGet_remove,
      if_pos rfl]

/-- Witness for the amended C2 at `regOne`. -/
theorem C2_amended_witness :
    alistGet regOne "foo" = some pkgOne ∧
    pkgOne.versions = [("1.0", pvSample)] ∧
    fsAllOk.removeDirOk pvSample.install_path = true ∧
    (alistGet (remove regOne "foo" (some "1.0") fsAllOk).1 "foo" =
      some { pkgOne with
             versions := []
             active_version := (if pkgOne.active_version = some "1.0" then none
                                else pkgOne.active_version) } ∧
     (remove regOne "foo" (some "1.0") fsAllOk).2 =
       RemoveResult.removedVersion "1.0" none ∧
     (pkgOne.versions.all (fun e => !fsAllOk.pathExists e.2.install_path ||
         fsAllOk.removeDirOk e.2.install_path) = true →
       alistGet (remove regOne "foo" none fsAllOk).1 "foo" = none)) :=
  ⟨rfl, rfl, rfl,
   C2_amended_last_version_leaves_empty_entry regOne "foo" "1.0" pkgOne
     pvSample fsAllOk rfl rfl rfl⟩

/-- C3 counterexample: `pkgThreeA` and `pkgThreeB` carry the same
version mapping (a permutation — the same HashMap contents in two
iteration orders) and the same active version `"1.0"`, but removing
`"1.0"` promotes `"2.0"` from the one and `"3.0"` from the other: the
promoted version is not determined by the remaining-versions state. -/
theorem C3_counterexample :
    pkgThreeA.versions.Perm pkgThreeB.versions ∧
    pkgThreeA.active_version = pkgThreeB.active_version ∧
    (remove regThreeA "foo" (some "1.0") fsAllOk).2 =
      RemoveResult.removedVersion "1.0" (some "2.0") ∧
    (remove regThreeB "foo" (some "1.0") fsAllOk).2 =
      RemoveResult.removedVersion "1.0" (some "3.0") := by
  refine ⟨?_, rfl, rfl, rfl⟩
  simp only [pkgThreeA, pkgThreeB]
  exact List.Perm.cons _ (List.Perm.swap _ _ _)

/-- C3 amended: when `remove` deletes the active version and other
versions remain, `active_version` is cleared and then set to the FIRST
remaining version in the map's iteration order (which Rust's HashMap
does not fix as a function of the mapping, so the promoted version is
some remaining version but not a deterministic function of the
remaining-versions state). -/
theorem C3_amended_promotes_iteration_head (reg : Registry) (n ver : String)
    (pkg : Package) (pv : PackageVersion) (fs : FsEnv) (nv : String)
    (pv' : PackageVersion) (rest : List (String × PackageVersion))
    (hg : alistGet reg n = some pkg)
    (hA : pkg.active_version = some ver)
    (hv : alistGet pkg.versions ver = some pv)
    (hfs : fs.removeDirOk pv.install_path = true)
    (hrem : alistRemove pkg.versions ver = (nv, pv') :: rest) :
    (remove reg n (some ver) fs).2 =
      RemoveResult.removedVersion ver (some nv) ∧
    alistGet (remove reg n (some ver) fs).1 n =
      some { pkg with
             versions := (nv, pv') :: rest
             active_version := some nv } := by
  have hprom : promotedVersion pkg ver = some nv := by
    unfold promotedVersion
    rw [if_pos hA, hrem]
  have hpkg1 : removedVersionPackage pkg ver =
      { pkg with
        versions := (nv, pv') :: rest
        active_version := some nv } := by
    unfold removedVersionPackage
    rw [if_pos hA, hprom, hrem]
  constructor
  · rw [remove_eq_removedVersion reg n ver fs pkg pv hg hv hfs, hprom]
  · rw [remove_eq_removedVersion reg n ver fs pkg pv hg hv hfs, hpkg1]
    rw [alistGet_insert, if_pos rfl]

/-- Witness for the amended C3 at `regThreeA`. -/
theorem C3_amended_witness :
    alistGet regThreeA "foo" = some pkgThreeA ∧
    pkgThreeA.active_version = some "1.0" ∧
    alistGet pkgThreeA.versions "1.0" = some pvSample ∧
    alistRemove pkgThreeA.versions "1.0" =
      ("2.0", pvSample) :: [("3.0", pvSample)] ∧
    ((remove regThreeA "foo" (some "1.0") fsAllOk).2 =
       RemoveResult.removedVersion "1.0" (some "2.0") ∧
     alistGet (remove regThreeA "foo" (some "1.0") fsAllOk).1 "foo" =
       some { pkgThreeA with
              versions := ("2.0", pvSample) :: [("3.0", pvSample)],
              active_version := some "2.0" }) :=
  ⟨rfl, rfl, rfl, rfl,
   C3_amended_promotes_iteration_head regThreeA "foo" "1.0" pkgThreeA
     pvSample fsAllOk "2.0" pvSample [("3.0", pvSample)] rfl rfl rfl rfl rfl⟩

/-- C4: when the installer capability fails, the whole install fails
with an installer error and the persisted registry is exactly the
loaded one — the failed attempt is not recorded. -/
theorem C4_installer_failure_unmodified (reg : Registry) (n : String)
    (v : Option String) (u : Bool) (env : InstallEnv) (pm : String)
    (e : Unit) (hpm : env.pmName = some pm)
    (hres : env.installResult = .error e) :
    install reg n v u env = (reg, InstallResult.installerError) :=
  install_eq_installerError reg n v u env pm e hpm hres

/-- Witness for C4 at `regOne` with a failing installer. -/
theorem C4_installer_failure_witness :
    envInstallFail.pmName = some "apt" ∧
    envInstallFail.installResult = Except.error () ∧
    install regOne "foo" (some "2.0") true envInstallFail =
      (regOne, InstallResult.installerError) :=
  ⟨rfl, rfl,
   C4_installer_failure_unmodified regOne "foo" (some "2.0") true
     envInstallFail "apt" () rfl rfl⟩

/-- C5: installing the same package name and version-label twice
overwrites that `PackageVersion` entry (the surviving entry is the
second call's record), never duplicates the version key, and `install`
never changes `active_version` when it was already set — neither after
one install nor after both. -/
theorem C5_install_idempotent (reg : Registry) (n : String)
    (ver : Option String) (u : Bool) (env1 env2 : InstallEnv)
    (pm1 pm2 : String) (bins1 bins2 : List String)
    (hwf : VersionsWF reg)
    (hpm1 : env1.pmName = some pm1) (hres1 : env1.installResult = .ok bins1)
    (hpm2 : env2.pmName = some pm2) (hres2 : env2.installResult = .ok bins2) :
    ∃ pkg2,
      alistGet (install (install reg n ver u env1).1 n ver u env2).1 n =
        some pkg2 ∧
      alistGet pkg2.versions (ver.getD "latest") =
        some { install_path := installDir u n (ver.getD "latest")
               install_date := env2.now
               bin_paths := bins2
               package_manager := some pm2 } ∧
      (pkg2.versions.map Prod.fst).count (ver.getD "latest") = 1 ∧
      (∀ pkg0 av, alistGet reg n = some pkg0 →
        pkg0.active_version = some av → pkg2.active_version = some av) ∧
      (∀ pkg0 av, alistGet reg n = some pkg0 →
        pkg0.active_version = some av →
        ∃ pkg1, alistGet (install reg n ver u env1).1 n = some pkg1 ∧
          pkg1.active_version = some av) := by
  have hreg1 : (install reg n ver u env1).1 =
      alistInsert reg n
        (installedPackage (fetchOrCreate reg n u) (ver.getD "latest")
          { install_path := installDir u n (ver.getD "latest")
            install_date := env1.now
            bin_paths := bins1
            package_manager := some pm1 }) := by
    rw [install_eq_installed reg n ver u env1 pm1 bins1 hpm1 hres1]
  have hget1 : alistGet (install reg n ver u env1).1 n =
      some (installedPackage (fetchOrCreate reg n u) (ver.getD "latest")
        { install_path := installDir u n (ver.getD "latest")
          install_date := env1.now
          bin_paths := bins1
          package_manager := some pm1 }) := by
    rw [hreg1, alistGet_insert, if_pos rfl]
  have hfoc : fetchOrCreate (install reg n ver u env1).1 n u =
      installedPackage (fetchOrCreate reg n u) (ver.getD "latest")
        { install_path := installDir u n (ver.getD "latest")
          install_date := env1.now
          bin_paths := bins1
          package_manager := some pm1 } := by
    unfold fetchOrCreate
    rw [hget1]
    rfl
  have hreg2 : (install (install reg n ver u env1).1 n ver u env2).1 =
      alistInsert (install reg n ver u env1).1 n
        (installedPackage
          (installedPackage (fetchOrCreate reg n u) (ver.getD "latest")
            { install_path := installDir u n (ver.getD "latest")
              install_date := env1.now
              bin_paths := bins1
              package_manager := some pm1 })
          (ver.getD "latest")
          { install_path := installDir u n (ver.getD "latest")
            install_date := env2.now
            bin_paths := bins2
            package_manager := some pm2 }) := by
    rw [install_eq_installed (install reg n ver u env1).1 n ver u env2 pm2
      bins2 hpm2 hres2, hfoc]
  have hvget2 : alistGet
      (installedPackage
        (installedPackage (fetchOrCreate reg n u) (ver.getD "latest")
          { install_path := installDir u n (ver.getD "latest")
            install_date := env1.now
            bin_paths := bins1
            package_manager := some pm1 })
        (ver.getD "latest")
        { install_path := installDir u n (ver.getD "latest")
          install_date := env2.now
          bin_paths := bins2
          package_manager := some pm2 }).versions (ver.getD "latest") =
      some { install_path := installDir u n (ver.getD "latest")
             install_date := env2.now
             bin_paths := bins2
             package_manager := some pm2 } := by
    rw [installedPackage_versions, alistGet_insert, if_pos rfl]
  have hn0 : ((fetchOrCreate reg n u).versions.map Prod.fst).Nodup := by
    unfold fetchOrCreate
    cases hg : alistGet reg n with
    | none => simp
    | some p => exact hwf (n, p) (alistGet_mem reg n p hg)
  refine ⟨_, by rw [hreg2, alistGet_insert, if_pos rfl], hvget2, ?_, ?_, ?_⟩
  · refine List.count_eq_one_of_mem ?_ (mem_keys_of_alistGet _ _ _ hvget2)
    rw [installedPackage_versions]
    refine nodup_keys_alistInsert _ _ _ ?_
    rw [installedPackage_versions]
    exact nodup_keys_alistInsert _ _ _ hn0
  · intro pkg0 av hg0 hA0
    have hfoc0 : fetchOrCreate reg n u = pkg0 := by
      unfold fetchOrCreate
      rw [hg0]
    refine installedPackage_active_of_some _ _ _ av ?_
    exact installedPackage_active_of_some _ _ _ av (by rw [hfoc0]; exact hA0)
  · intro pkg0 av hg0 hA0
    have hfoc0 : fetchOrCreate reg n u = pkg0 := by
      unfold fetchOrCreate
      rw [hg0]
    exact ⟨_, hget1,
      installedPackage_active_of_some _ _ _ av (by rw [hfoc0]; exact hA0)⟩

/-- Witness for C5 at `regOne`: re-install version `1.0` of `"foo"`
twice. -/
theorem C5_install_idempotent_witness :
    VersionsWF regOne ∧
    envInstallOk.pmName = some "apt" ∧
    envInstallOk.installResult =
      Except.ok ["/opt/updater/packages/foo/1.0/bin/foo"] ∧
    (∃ pkg2,
      alistGet (install (install regOne "foo" (some "1.0") true envInstallOk).1
          "foo" (some "1.0") true envInstallOk).1 "foo" = some pkg2 ∧
      alistGet pkg2.versions ((some "1.0").getD "latest") =
        some { install_path := installDir true "foo" ((some "1.0").getD "latest")
               install_date := envInstallOk.now
               bin_paths := ["/opt/updater/packages/foo/1.0/bin/foo"]
               package_manager := some "apt" } ∧
      (pkg2.versions.map Prod.fst).count ((some "1.0").getD "latest") = 1 ∧
      (∀ pkg0 av, alistGet regOne "foo" = some pkg0 →
        pkg0.active_version = some av → pkg2.active_version = some av) ∧
      (∀ pkg0 av, alistGet regOne "foo" = some pkg0 →
        pkg0.active_version = some av →
        ∃ pkg1, alistGet (install regOne "foo" (some "1.0") true envInstallOk).1
            "foo" = some pkg1 ∧
          pkg1.active_version = some av)) :=
  ⟨by decide, rfl, rfl,
   C5_install_idempotent regOne "foo" (some "1.0") true envInstallOk
     envInstallOk "apt" "apt" ["/opt/updater/packages/foo/1.0/bin/foo"]
     ["/opt/updater/packages/foo/1.0/bin/foo"] (by decide) rfl rfl rfl rfl⟩

/-- C6: for `switch` on an existing package, a target version-label
that is a key of `versions` makes it the persisted active version; an
absent label leaves the whole registry unchanged (and the result is a
report, not a propagated error). -/
theorem C6_switch_behavior (reg : Registry) (n ver : String) (pkg : Package)
    (hg : alistGet reg n = some pkg) :
    ((alistGet pkg.versions ver).isSome = true →
      alistGet (switch reg n ver).1 n =
        some { pkg with active_version := some ver } ∧
      (switch reg n ver).2 = SwitchResult.switched) ∧
    ((alistGet pkg.versions ver).isSome = false →
      switch reg n ver = (reg, SwitchResult.versionNotFound)) := by
  constructor
  · intro hv
    simp only [switch_eq_switched reg n ver pkg hg hv]
    refine ⟨by rw [alistGet_insert, if_pos rfl], by trivial⟩
  · intro hv
    exact switch_eq_versionNotFound reg n ver pkg hg hv

/-- Witness for C6 at `regOne`, exercising both branches. -/
theorem C6_switch_behavior_witness :
    alistGet regOne "foo" = some pkgOne ∧
    (alistGet pkgOne.versions "1.0").isSome = true ∧
    alistGet (switch regOne "foo" "1.0").1 "foo" =
      some { pkgOne with active_version := some "1.0" } ∧
    (switch regOne "foo" "1.0").2 = SwitchResult.switched ∧
    (alistGet pkgOne.versions "9.9").isSome = false ∧
    switch regOne "foo" "9.9" = (regOne, SwitchResult.versionNotFound) :=
  ⟨rfl, rfl,
   ((C6_switch_behavior regOne "foo" "1.0" pkgOne rfl).1 rfl).1,
   ((C6_switch_behavior regOne "foo" "1.0" pkgOne rfl).1 rfl).2,
   rfl,
   (C6_switch_behavior regOne "foo" "9.9" pkgOne rfl).2 rfl⟩

/-- C7 counterexample: `regOne`'s only package has an active version
and a recorded installer (`"apt"`), but when
`get_package_manager_by_name` fails to resolve that name, all-targets
update aborts with an error instead of returning overall success — so
the claim does not hold for every assignment of installer outcomes. -/
theorem C7_counterexample :
    eligiblePM pkgOne = some "apt" ∧
    update regOne none envUpdateNoResolve = (regOne, Except.error ()) :=
  ⟨rfl, rfl⟩

/-- C7 amended: all-targets update isolates failures of the installer's
`update` call — provided every processed package's recorded installer
name resolves, every package with an active version (present in
`versions`) and a recorded installer is processed (appears among the
updated or the failed names) and the batch returns overall success,
for every assignment of per-package update outcomes.  A failure to
resolve a recorded installer name, by contrast, aborts the batch. -/
theorem C7_amended_update_all_isolates (reg : Registry) (env : UpdateEnv)
    (hres : ∀ e ∈ reg, Option.all env.resolve (eligiblePM e.2) = true) :
    ∃ upd fail, update reg none env = (reg, Except.ok (upd, fail)) ∧
      ∀ e ∈ reg, (eligiblePM e.2).isSome = true →
        e.1 ∈ upd ∨ e.1 ∈ fail := by
  obtain ⟨u, f, hloop, hmem⟩ := updateAllLoop_isolates env reg hres
  exact ⟨u, f, by simp [update, hloop], hmem⟩

/-- Witness for the amended C7 at `regOne`. -/
theorem C7_amended_witness :
    (∀ e ∈ regOne, Option.all envUpdateOk.resolve (eligiblePM e.2) = true) ∧
    (∃ upd fail,
      update regOne none envUpdateOk = (regOne, Except.ok (upd, fail)) ∧
      ∀ e ∈ regOne, (eligiblePM e.2).isSome = true →
        e.1 ∈ upd ∨ e.1 ∈ fail) :=
  ⟨by decide, C7_amended_update_all_isolates regOne envUpdateOk (by decide)⟩

/-- C8 counterexample: `regPairA` and `regPairB` are the same registry
mapping (a permutation — two iteration orders a fresh load of the same
persisted document may produce), but `list` prints the package blocks
in a different order for the two representations. -/
theorem C8_counterexample :
    regPairA.Perm regPairB ∧
    listOutput regPairA false false ≠ listOutput regPairB false false := by
  constructor
  · simp only [regPairA, regPairB]
    exact List.Perm.swap _ _ _
  · decide

/-- C8 amended: `list` output is a deterministic function of the loaded
in-memory representation, and permutation-equivalent representations of
an unchanged registry produce the same package blocks as a multiset —
but their order follows the representation's iteration order, which
Rust's HashMap does not guarantee to repeat across separate loads. -/
theorem C8_amended_list_stable_up_to_perm (reg1 reg2 : Registry)
    (systemOnly userOnly : Bool) (h : reg1.Perm reg2) :
    (listOutput reg1 systemOnly userOnly).Perm
      (listOutput reg2 systemOnly userOnly) := by
  unfold listOutput
  exact (h.filter _).map _

/-- Witness for the amended C8 at the pair registries. -/
theorem C8_amended_witness :
    regPairA.Perm regPairB ∧
    (listOutput regPairA false false).Perm (listOutput regPairB false false) := by
  have hp : regPairA.Perm regPairB := by
    simp only [regPairA, regPairB]
    exact List.Perm.swap _ _ _
  exact ⟨hp, C8_amended_list_stable_up_to_perm regPairA regPairB false false hp⟩

/-- C9: `remove` of an absent package reports package-not-found;
`remove` of an existing package with an absent version-label reports
version-not-found; both return without a propagated error and leave
the persisted registry exactly as loaded. -/
theorem C9_remove_not_found_no_change (reg : Registry) (n : String)
    (fs : FsEnv) :
    (alistGet reg n = none →
      ∀ v, remove reg n v fs = (reg, RemoveResult.packageNotFound)) ∧
    (∀ pkg ver, alistGet reg n = some pkg →
      alistGet pkg.versions ver = none →
      remove reg n (some ver) fs = (reg, RemoveResult.versionNotFound)) := by
  constructor
  · intro hg v
    exact remove_eq_packageNotFound reg n v fs hg
  · intro pkg ver hg hv
    exact remove_eq_versionNotFound reg n ver fs pkg hg hv

/-- Witness for C9 at `regOne`, exercising both branches. -/
theorem C9_remove_not_found_witness :
    alistGet regOne "bar" = none ∧
    remove regOne "bar" none fsAllOk = (regOne, RemoveResult.packageNotFound) ∧
    alistGet regOne "foo" = some pkgOne ∧
    alistGet pkgOne.versions "9.9" = none ∧
    remove regOne "foo" (some "9.9") fsAllOk =
      (regOne, RemoveResult.versionNotFound) :=
  ⟨rfl, (C9_remove_not_found_no_change regOne "bar" fsAllOk).1 rfl none,
   rfl, rfl,
   (C9_remove_not_found_no_change regOne "foo" fsAllOk).2 pkgOne "9.9" rfl rfl⟩

/-- C10: `update` never mutates registry contents — the registry it
persists equals the registry it loaded, for every target and every
combination of installer outcomes. -/
theorem C10_update_never_mutates (reg : Registry) (name : Option String)
    (env : UpdateEnv) : (update reg name env).1 = reg :=
  update_fst reg name env

end Updater
